import Mathlib

/-!
Shallow embedding of the PySyft autodp scalar/tensor provenance algebra.

Scalar side: `src/src/syft/lib/adp/scalar.py` — `PhiScalar`, `GammaScalar`,
`IntermediatePhiScalar`, `IntermediateGammaScalar`, the process-wide symbol
registry `ssid2obj`, and the sensitivity-search entry points.

Tensor side: `src/packages/syft/src/syft/core/tensor/autodp/intermediate_gamma.py`
— `IntermediateGammaTensor` with its `sum`/`prod`/`__add__`/`__mul__`.

Symbolic polynomials (sympy expressions in the source) are embedded as a small
expression tree with evaluation, free-symbol collection and differentiation.
Entities and ssids are embedded as natural-number identity tokens (the source
uses UID-derived strings; only freshness/equality matter).
-/

namespace Adp

/-- A symbolic polynomial over leaf symbols, standing for the sympy
expressions the source builds with `+`, `-`, `*` over `symbols(ssid)`. -/
inductive Poly where
  | const : ℚ → Poly
  | var : ℕ → Poly
  | add : Poly → Poly → Poly
  | sub : Poly → Poly → Poly
  | mul : Poly → Poly → Poly
deriving DecidableEq, Repr

/-- Free symbols of a polynomial (`poly.free_symbols` in the source). -/
def Poly.freeSyms : Poly → Finset ℕ
  | .const _ => ∅
  | .var s => {s}
  | .add p q => p.freeSyms ∪ q.freeSyms
  | .sub p q => p.freeSyms ∪ q.freeSyms
  | .mul p q => p.freeSyms ∪ q.freeSyms

/-- Evaluate a polynomial under an assignment of symbol values
(`poly.subs` with a full substitution in the source). -/
def Poly.eval (f : ℕ → ℚ) : Poly → ℚ
  | .const q => q
  | .var s => f s
  | .add p q => p.eval f + q.eval f
  | .sub p q => p.eval f - q.eval f
  | .mul p q => p.eval f * q.eval f

/-- Partial derivative with respect to one symbol (`sympy.diff`). -/
def Poly.deriv (s : ℕ) : Poly → Poly
  | .const _ => .const 0
  | .var t => if t = s then .const 1 else .const 0
  | .add p q => .add (p.deriv s) (q.deriv s)
  | .sub p q => .sub (p.deriv s) (q.deriv s)
  | .mul p q => .add (.mul (p.deriv s) q) (.mul p (q.deriv s))

/-- The symbols of a polynomial in occurrence order (with repetitions). -/
def Poly.symOcc : Poly → List ℕ
  | .const _ => []
  | .var s => [s]
  | .add p q => p.symOcc ++ q.symOcc
  | .sub p q => p.symOcc ++ q.symOcc
  | .mul p q => p.symOcc ++ q.symOcc

/-- The free symbols in a canonical (deduplicated) list form, standing for
the iteration order over sympy's `free_symbols` set. -/
def Poly.symList (p : Poly) : List ℕ :=
  p.symOcc.dedup

/-- A leaf scalar object as stored in the symbol registry: the data of an
`OriginScalar` (`PhiScalar` when `isGamma = false`, `GammaScalar` when
`isGamma = true`): its ssid, owning entity and bound box. -/
structure LeafScalar where
  ssid : ℕ
  entity : ℕ
  minV : ℚ
  val : ℚ
  maxV : ℚ
  isGamma : Bool
deriving DecidableEq, Repr

/-- The process-wide mutable state of the module: the `ssid2obj` registry
plus a source of fresh ssids (the source mints them from fresh UIDs). -/
structure AdpState where
  reg : List (ℕ × LeafScalar)
  next : ℕ
deriving DecidableEq, Repr

/-- Dictionary lookup `ssid2obj[s]` (first match wins; entries are prepended
on registration, matching latest-write-wins dict semantics). -/
def AdpState.find? (st : AdpState) (s : ℕ) : Option LeafScalar :=
  (st.reg.find? (fun pr => pr.1 = s)).map Prod.snd

/-- Mint a fresh leaf and register it (`OriginScalar.__init__` followed by
the `ssid2obj[self.ssid] = self` line in `PhiScalar`/`GammaScalar`). -/
def mkLeaf (st : AdpState) (minV val maxV : ℚ) (entity : ℕ) (isGamma : Bool) :
    LeafScalar × AdpState :=
  let l : LeafScalar := ⟨st.next, entity, minV, val, maxV, isGamma⟩
  (l, ⟨(st.next, l) :: st.reg, st.next + 1⟩)

/-- A Phi-side value: a `PhiScalar` leaf or a derived `IntermediatePhiScalar`.
Both carry the `_gamma` cache field of `IntermediateScalar`. -/
inductive PhiVal where
  | leaf (l : LeafScalar) (cache : Option LeafScalar)
  | derived (poly : Poly) (entity : ℕ) (cache : Option LeafScalar)
deriving DecidableEq, Repr

/-- The entity of a Phi-side value. -/
def PhiVal.entity : PhiVal → ℕ
  | .leaf l _ => l.entity
  | .derived _ e _ => e

/-- The symbolic polynomial of a Phi-side value (a leaf's poly is the
one-symbol polynomial `symbols(self.ssid)`). -/
def PhiVal.poly : PhiVal → Poly
  | .leaf l _ => .var l.ssid
  | .derived p _ _ => p

/-- The `_gamma` cache of a Phi-side value. -/
def PhiVal.cache : PhiVal → Option LeafScalar
  | .leaf _ c => c
  | .derived _ _ c => c

/-- A Gamma-side value: a `GammaScalar` leaf or a derived
`IntermediateGammaScalar`. -/
inductive GammaVal where
  | leaf (l : LeafScalar)
  | derived (poly : Poly)
deriving DecidableEq, Repr

/-- The symbolic polynomial of a Gamma-side value. -/
def GammaVal.poly : GammaVal → Poly
  | .leaf l => .var l.ssid
  | .derived p => p

/-- The result of a Phi-side binary operation: either still Phi-typed or
promoted to Gamma-typed. -/
inductive ScalarResult where
  | phiRes (p : PhiVal)
  | gammaRes (g : GammaVal)
deriving DecidableEq, Repr

/-- Modelled from the spec: `flatten_and_maximize_poly` lives in
`syft/lib/adp/search.py`, which is not part of the reviewed sources.  The
spec (§4.2) says derived `min_val`/`max_val` "invoke a polynomial extremum
search (maximize/minimize the expression over the box constraints of its
free symbols)".  The ops below are parametrized by this oracle; bound
*accuracy* claims are stated against the extremum relations further down. -/
structure Optimizer where
  lo : AdpState → Poly → ℚ
  hi : AdpState → Poly → ℚ

/-- The symbol-to-concrete-value assignment induced by the registry
(`{obj.poly: obj.value for obj in self.input_scalars}`). -/
def leafVals (st : AdpState) : ℕ → ℚ :=
  fun s => ((st.find? s).map (·.val)).getD 0

/-- Source `IntermediateScalar.value`: substitute every input leaf's concrete value
into the polynomial. -/
def valueOf (st : AdpState) (p : Poly) : ℚ :=
  p.eval (leafVals st)

/-- Source `IntermediatePhiScalar.gamma`: return the cached `GammaScalar` if
present, else lazily materialize one from the current bounds/value
(`GammaScalar(min_val=self.min_val, value=self.value, max_val=self.max_val,
entity=self.entity)`) — registering it as a fresh leaf.  A leaf operand's
bounds are its stored fields; a derived operand's bounds come from the
extremum-search oracle and its value from substitution. -/
def phiGamma (opt : Optimizer) (st : AdpState) : PhiVal → LeafScalar × AdpState
  | .leaf l c =>
      match c with
      | some g => (g, st)
      | none => mkLeaf st l.minV l.val l.maxV l.entity true
  | .derived p e c =>
      match c with
      | some g => (g, st)
      | none => mkLeaf st (opt.lo st p) (valueOf st p) (opt.hi st p) e true

/-- Source `IntermediateGammaScalar.__add__` on two gamma-side operands:
`IntermediateGammaScalar(poly=self.poly + other.poly)` (no entity branch,
no registry access). -/
def gammaAddGamma (a b : GammaVal) : GammaVal :=
  .derived (.add a.poly b.poly)

/-- Source `IntermediateGammaScalar.__sub__` on two gamma-side operands. -/
def gammaSubGamma (a b : GammaVal) : GammaVal :=
  .derived (.sub a.poly b.poly)

/-- Source `IntermediateGammaScalar.__mul__` on two gamma-side operands. -/
def gammaMulGamma (a b : GammaVal) : GammaVal :=
  .derived (.mul a.poly b.poly)

/-- Source `IntermediatePhiScalar.__add__` on two Phi-side operands: same entity
fuses polynomials staying Phi-typed; different entities promote both
operands via `.gamma` and delegate to gamma-side addition. -/
def phiAddPhi (opt : Optimizer) (st : AdpState) (a b : PhiVal) :
    ScalarResult × AdpState :=
  if a.entity = b.entity then
    (.phiRes (.derived (.add a.poly b.poly) a.entity none), st)
  else
    let (ga, st1) := phiGamma opt st a
    let (gb, st2) := phiGamma opt st1 b
    (.gammaRes (gammaAddGamma (.leaf ga) (.leaf gb)), st2)

/-- Source `IntermediatePhiScalar.__sub__` on two Phi-side operands. -/
def phiSubPhi (opt : Optimizer) (st : AdpState) (a b : PhiVal) :
    ScalarResult × AdpState :=
  if a.entity = b.entity then
    (.phiRes (.derived (.sub a.poly b.poly) a.entity none), st)
  else
    let (ga, st1) := phiGamma opt st a
    let (gb, st2) := phiGamma opt st1 b
    (.gammaRes (gammaSubGamma (.leaf ga) (.leaf gb)), st2)

/-- Source `IntermediatePhiScalar.__mul__` on two Phi-side operands. -/
def phiMulPhi (opt : Optimizer) (st : AdpState) (a b : PhiVal) :
    ScalarResult × AdpState :=
  if a.entity = b.entity then
    (.phiRes (.derived (.mul a.poly b.poly) a.entity none), st)
  else
    let (ga, st1) := phiGamma opt st a
    let (gb, st2) := phiGamma opt st1 b
    (.gammaRes (gammaMulGamma (.leaf ga) (.leaf gb)), st2)

/-- Source `IntermediatePhiScalar.__add__` with a plain numeric constant operand:
stays Phi-typed with the same entity. -/
def phiAddConst (a : PhiVal) (c : ℚ) : PhiVal :=
  .derived (.add a.poly (.const c)) a.entity none

/-- The three binary operators of the algebra. -/
inductive BinOp where
  | opAdd
  | opSub
  | opMul
deriving DecidableEq, Repr

/-- Dispatch a Phi-side binary operation by operator tag. -/
def phiOpPhi : BinOp → Optimizer → AdpState → PhiVal → PhiVal →
    ScalarResult × AdpState
  | .opAdd => phiAddPhi
  | .opSub => phiSubPhi
  | .opMul => phiMulPhi

/-- Dispatch a Gamma-side binary operation by operator tag. -/
def gammaOpGamma : BinOp → GammaVal → GammaVal → GammaVal
  | .opAdd => gammaAddGamma
  | .opSub => gammaSubGamma
  | .opMul => gammaMulGamma

/-- The poly of a `ScalarResult`. -/
def ScalarResult.poly : ScalarResult → Poly
  | .phiRes p => p.poly
  | .gammaRes g => g.poly

/-- The entity a registered symbol traces back to (`ssid2obj[ssid].entity`;
symbols are registered in every reachable state this is applied to). -/
def entityOfSym (st : AdpState) (s : ℕ) : ℕ :=
  ((st.find? s).map (·.entity)).getD 0

/-- Source `IntermediateScalar.input_entities`: the deduplicated set of entities
reachable from the polynomial's free symbols via the registry. -/
def inputEntities (st : AdpState) (p : Poly) : Finset ℕ :=
  p.freeSyms.image (entityOfSym st)

/-- An assignment lies in the bound box of a polynomial's registered
leaves: each free symbol's value stays within its leaf's
`[min_val, max_val]`. -/
def InBox (st : AdpState) (p : Poly) (f : ℕ → ℚ) : Prop :=
  ∀ s ∈ p.freeSyms, ∀ l, st.find? s = some l → l.minV ≤ f s ∧ f s ≤ l.maxV

/-- Asserts that `M` is the maximum of `p` over the bound box of its leaves — the value
the spec assigns to a derived `max_val` (extremum search, not interval
propagation). -/
def IsMaxOverBox (st : AdpState) (p : Poly) (M : ℚ) : Prop :=
  (∀ f, InBox st p f → p.eval f ≤ M) ∧ (∃ f, InBox st p f ∧ p.eval f = M)

/-- Asserts that `m` is the minimum of `p` over the bound box of its leaves — the value
the spec assigns to a derived `min_val`. -/
def IsMinOverBox (st : AdpState) (p : Poly) (m : ℚ) : Prop :=
  (∀ f, InBox st p f → m ≤ p.eval f) ∧ (∃ f, InBox st p f ∧ p.eval f = m)

/-- Every free symbol of `p` is registered in the symbol table. -/
def SymsReg (st : AdpState) (p : Poly) : Prop :=
  ∀ s ∈ p.freeSyms, (st.find? s).isSome

/-- Every registered leaf satisfies the bound-ordering invariant
`min_val ≤ value ≤ max_val`. -/
def LeafOrdered (st : AdpState) : Prop :=
  ∀ pr ∈ st.reg, pr.2.minV ≤ pr.2.val ∧ pr.2.val ≤ pr.2.maxV

/-- Registry well-formedness: each entry is keyed by its own ssid and every
registered ssid is strictly below the fresh-id source (so fresh ssids never
collide with registered ones). -/
def StateWF (st : AdpState) : Prop :=
  ∀ pr ∈ st.reg, pr.2.ssid = pr.1 ∧ pr.1 < st.next

/-- The `_gamma` cache, when populated, holds a gamma leaf of the same
entity that is registered in the current state (this is how the source's
`gamma` property always leaves it). -/
def CacheWF (st : AdpState) (e : ℕ) : Option LeafScalar → Prop
  | none => True
  | some g => g.entity = e ∧ st.find? g.ssid = some g

/-- A trivial bound oracle (used to instantiate theorems whose conclusion
does not depend on the oracle's answers). -/
def zeroOptimizer : Optimizer :=
  ⟨fun _ _ => 0, fun _ _ => 0⟩

/-- Modelled from the spec: the jacobian objective of
`max_lipschitz_via_jacobian` (in `syft/lib/adp/search.py`, absent from the
reviewed sources).  §4.3: the routine "computes the partial derivative of
the target polynomial with respect to either all input scalars or only
those belonging to one named entity".  This is the squared magnitude of
that restricted gradient, as a polynomial: the sum of the squared partial
derivatives over the selected input symbols (`none` selects all inputs,
`some e` only those traceable to entity `e` through the symbol table). -/
def gradientSq (st : AdpState) (p : Poly) (ent : Option ℕ) : Poly :=
  ((p.symList).filter (fun s =>
      match ent with
      | none => true
      | some e => entityOfSym st s = e)).foldr
    (fun s acc => .add (.mul (p.deriv s) (p.deriv s)) acc) (.const 0)

/-- Modelled from the spec: the contract of `max_lipschitz_wrt_entity`
(§4.3), whose optimizer lives in the absent `search.py`.  `L` is the
maximum over the bound box of the magnitude of the gradient restricted to
the entity's inputs: `L` is nonnegative and `L²` is the box maximum of the
squared gradient magnitude. -/
def MaxLipschitzWrt (st : AdpState) (p : Poly) (e : ℕ) (L : ℚ) : Prop :=
  0 ≤ L ∧ IsMaxOverBox st (gradientSq st p (some e)) (L * L)


/-- The registry state reached in the C2 end-to-end scenario: the two Phi
leaves (entity 0 bounds `[0,10]` value 5, entity 1 bounds `[0,10]` value 3)
followed by the two gamma leaves minted when the cross-entity sum promoted
both operands. -/
def c2State : AdpState :=
  ⟨[(3, ⟨3, 1, 0, 3, 10, true⟩), (2, ⟨2, 0, 0, 5, 10, true⟩),
    (1, ⟨1, 1, 0, 3, 10, false⟩), (0, ⟨0, 0, 0, 5, 10, false⟩)], 4⟩

/-- The symbolic polynomial of the C2 promoted sum: the sum of the two
freshly minted gamma symbols. -/
def c2Poly : Poly := .add (.var 2) (.var 3)

/-- Modelled from the spec: the one property of the absent
`flatten_and_maximize_poly` the bound invariant rests on — an extremum
search over the box of a polynomial's leaves brackets the polynomial's
value at the leaves' own (in-box) point values, so the `lo`/`hi` answers
sandwich `value`. -/
def PointwiseSound (opt : Optimizer) : Prop :=
  ∀ st p, opt.lo st p ≤ valueOf st p ∧ valueOf st p ≤ opt.hi st p

/-- The bound-ordering invariant on a Phi-side operand's own stored leaf
(derived operands store no bounds — they are recomputed on read). -/
def PhiLeafOrdered : PhiVal → Prop
  | .leaf l _ => l.minV ≤ l.val ∧ l.val ≤ l.maxV
  | .derived _ _ _ => True

/-- The bound oracle that answers every query with the polynomial's exact
point value (trivially pointwise-sound). -/
def valueOptimizer : Optimizer :=
  ⟨valueOf, valueOf⟩

/-- Modelled from the spec: the outcome of one optimizer run of the
jacobian-based sensitivity search (`minimize_function` /
`max_lipschitz_via_jacobian` in `syft/lib/adp/search.py`, absent from the
reviewed sources).  §4.3/§7: the search either converges to the minimized
objective value or "must surface as a distinguishable failure (not a
silently wrong float)". -/
inductive SearchOutcome where
  | converged (fnval : ℚ)
  | failed (msg : String)
deriving DecidableEq, Repr

/-- Modelled from the spec: what a conformant jacobian-search outcome for
target polynomial `p` under entity restriction `ent` looks like.  A
converged run has minimized the negated restricted-gradient magnitude over
the box, so its objective value is `-L` where `L ≥ 0` is the box maximum
of the gradient magnitude (`L²` maximizes the squared magnitude); a
failure is a permissible outcome on any instance (convergence is never
guaranteed). -/
def JacobianConformant (st : AdpState) (p : Poly) (ent : Option ℕ) :
    SearchOutcome → Prop
  | .converged v => ∃ L, 0 ≤ L ∧ v = -L ∧
      IsMaxOverBox st (gradientSq st p ent) (L * L)
  | .failed _ => True

/-- Source `IntermediateGammaScalar.max_lipschitz` / `max_lipschitz_wrt_entity`
(scalar.py lines 356-369): negate the final optimizer result's objective
value; a search failure propagates out of the property unchanged (the
wrapper performs no recovery). -/
def maxLipschitzFromOutcome : SearchOutcome → Except String ℚ
  | .converged v => .ok (-v)
  | .failed msg => .error msg

/-- The values a Python attribute lookup on a scalar object can yield. -/
inductive PyVal where
  | vUID (u : ℕ)
  | vNum (q : ℚ)
  | vStr (s : String)
  | vEntity (e : ℕ)
  | vPoly (p : Poly)
  | vNone
deriving DecidableEq, Repr

/-- The attribute table of a freshly constructed `PhiScalar`: the
constructor chain (`PhiScalar.__init__` → `OriginScalar.__init__`, then
`IntermediatePhiScalar.__init__` → `IntermediateScalar.__init__`) assigns
exactly `id`, `_value`, `_min_val`, `_max_val`, `entity`, `ssid`, `poly`
and `_gamma` (initially `None`); no constructor in `scalar.py` assigns
`name` or `entity_name`. -/
def phiScalarAttr (l : LeafScalar) (u : ℕ) : String → Option PyVal :=
  fun a =>
    if a = "id" then some (.vUID u)
    else if a = "_value" then some (.vNum l.val)
    else if a = "_min_val" then some (.vNum l.minV)
    else if a = "_max_val" then some (.vNum l.maxV)
    else if a = "entity" then some (.vEntity l.entity)
    else if a = "ssid" then some (.vStr (toString l.ssid))
    else if a = "poly" then some (.vPoly (.var l.ssid))
    else if a = "_gamma" then some .vNone
    else none

/-- Python attribute lookup: `AttributeError` when the object has no such
attribute. -/
def getAttr (attr : String → Option PyVal) (a : String) :
    Except String PyVal :=
  match attr a with
  | some v => .ok v
  | none => .error ("AttributeError: " ++ a)

/-- The presence-flagged wire form `Scalar_PB`
(`syft/proto/lib/adp/scalar_pb2`): each optional field carries an explicit
presence flag plus a sentinel-defaulted value. -/
structure ScalarPB where
  pid : ℕ
  hasName : Bool
  pname : String
  hasValue : Bool
  pvalue : ℚ
  hasMinVal : Bool
  pminVal : ℚ
  hasMaxVal : Bool
  pmaxVal : ℚ
  hasEntityName : Bool
  pentityName : String
deriving DecidableEq, Repr

/-- The numeric payload of an attribute value (`x if x is not None else 0`). -/
def PyVal.numOr0 : PyVal → ℚ
  | .vNum q => q
  | _ => 0

/-- The string payload of an attribute value
(`x if x is not None else ""`). -/
def PyVal.strOrEmpty : PyVal → String
  | .vStr s => s
  | _ => ""

/-- The id payload of an attribute value. -/
def PyVal.uidOr0 : PyVal → ℕ
  | .vUID u => u
  | _ => 0

/-- Source `Scalar._object2proto` (scalar.py lines 54-69): build the
presence-flagged message from `self.id`, `self.name`, `self._value`,
`self._min_val`, `self._max_val` and `self.entity_name`; an attribute the
object does not have raises `AttributeError` at its first access. -/
def object2proto (attr : String → Option PyVal) : Except String ScalarPB := do
  let pid ← getAttr attr "id"
  let nm ← getAttr attr "name"
  let v ← getAttr attr "_value"
  let mn ← getAttr attr "_min_val"
  let mx ← getAttr attr "_max_val"
  let en ← getAttr attr "entity_name"
  return ⟨pid.uidOr0,
    nm ≠ .vNone, nm.strOrEmpty,
    v ≠ .vNone, v.numOr0,
    mn ≠ .vNone, mn.numOr0,
    mx ≠ .vNone, mx.numOr0,
    en ≠ .vNone, en.strOrEmpty⟩

/-- The constructor call `Scalar(id=..., name=..., value=..., min_val=...,
max_val=..., entity=...)` issued by `_proto2object` (lines 93-100):
`class Scalar` (line 42) defines no `__init__` anywhere in its hierarchy
that accepts these keywords, so the call raises `TypeError` before any
object exists. -/
def scalarNew (pid : ℕ) (nm : Option String) (v mn mx : Option ℚ)
    (en : Option String) : Except String Unit :=
  .error "TypeError: Scalar() takes no arguments"

/-- Source `Scalar._proto2object` (lines 71-100): decode each presence-flagged
field to an optional value, then call `Scalar(...)`. -/
def proto2object (pb : ScalarPB) : Except String Unit :=
  scalarNew pb.pid
    (if pb.hasName then some pb.pname else none)
    (if pb.hasValue then some pb.pvalue else none)
    (if pb.hasMinVal then some pb.pminVal else none)
    (if pb.hasMaxVal then some pb.pmaxVal else none)
    (if pb.hasEntityName then some pb.pentityName else none)

/-- Source `IntermediateGammaTensor` from
`packages/syft/src/syft/core/tensor/autodp/intermediate_gamma.py`.
`term_tensor`/`coeff_tensor` are represented by their list of slices along
the trailing axis (`xs[..., i]` is `xs.get? i`, `np.expand_dims(s, -1)` is
`[s]`, `np.concatenate(ts, axis=-1)` is list concatenation); `A` is the
type of one slice (an array over the leading axes, equipped with the
elementwise `+`/`*`), `F` the symbol-factory type. -/
structure IntermediateGammaTensor (A F : Type) where
  term_tensor : List A
  coeff_tensor : List A
  bias_tensor : A
  symbol_factory : F
deriving DecidableEq, Repr

namespace IntermediateGammaTensor

variable {A F : Type} [Add A] [Mul A] [DecidableEq F]

/-- Source `__add__` with a plain (acceptable simple type) operand: only the bias
changes. -/
def addConst (t : IntermediateGammaTensor A F) (c : A) :
    IntermediateGammaTensor A F :=
  ⟨t.term_tensor, t.coeff_tensor, t.bias_tensor + c, t.symbol_factory⟩

/-- Source `__add__` with a tensor operand: mismatched symbol factories raise;
otherwise term/coeff tensors are concatenated along the trailing axis and
the biases are summed. -/
def add (a b : IntermediateGammaTensor A F) :
    Except String (IntermediateGammaTensor A F) :=
  if a.symbol_factory ≠ b.symbol_factory then
    .error "Cannot add two tensors with different symbol encodings"
  else
    .ok ⟨a.term_tensor ++ b.term_tensor, a.coeff_tensor ++ b.coeff_tensor,
      a.bias_tensor + b.bias_tensor, a.symbol_factory⟩

/-- Source `__mul__` with a plain operand: coeff and bias are scaled. -/
def mulConst (t : IntermediateGammaTensor A F) (c : A) :
    IntermediateGammaTensor A F :=
  ⟨t.term_tensor, t.coeff_tensor.map (· * c), t.bias_tensor * c,
    t.symbol_factory⟩

/-- The third term loop of `__mul__` as written in the source: it iterates
`range(self.term_tensor.shape[-1])` times but indexes
`other.term_tensor[..., self_dim]` with `self_dim` left over from the
previous loop (its final value `m - 1`); when `m - 1` is outside `other`'s
trailing axis numpy raises `IndexError`.  When `m = 0` the loop body never
runs. -/
def staleTailTerms (m : ℕ) (others : List A) : Except String (List A) :=
  match m with
  | 0 => .ok []
  | k + 1 =>
    match others.get? k with
    | none => .error "IndexError: index out of bounds on trailing axis"
    | some t => .ok (List.replicate (k + 1) t)

/-- Source `__mul__` with a tensor operand: mismatched symbol factories raise;
otherwise the term tensor is the concatenation of the `m*n` pairwise
products, `self`'s own `m` slices, and the third (stale-index) loop's
output; the coeff tensor follows the same three loops with `self` coeffs
scaled by `other`'s bias and the stale-indexed `other` coeff scaled by
`self`'s bias; the bias is the product of biases. -/
def mul (a b : IntermediateGammaTensor A F) :
    Except String (IntermediateGammaTensor A F) :=
  if a.symbol_factory ≠ b.symbol_factory then
    .error "Cannot add two tensors with different symbol encodings"
  else do
    let crossT := a.term_tensor.flatMap (fun s => b.term_tensor.map (fun t => s * t))
    let tailT ← staleTailTerms a.term_tensor.length b.term_tensor
    let crossC := a.coeff_tensor.flatMap (fun s => b.coeff_tensor.map (fun t => s * t))
    let selfC := a.coeff_tensor.map (· * b.bias_tensor)
    let tailC ← (staleTailTerms a.coeff_tensor.length b.coeff_tensor).map
      (·.map (· * a.bias_tensor))
    .ok ⟨crossT ++ a.term_tensor ++ tailT, crossC ++ selfC ++ tailC,
      a.bias_tensor * b.bias_tensor, a.symbol_factory⟩

/-- Source `prod(dim)`: the source computes the three product-reductions along
`dim` and then calls the constructor with the misspelled keyword
`bias_Tensor=` — the constructor's parameters are `term_tensor`,
`coeff_tensor`, `symbol_factory`, `bias_tensor` — so every call raises
`TypeError` before any tensor is produced (the reductions have no
observable effect). -/
def prod (t : IntermediateGammaTensor A F) (dim : ℕ) :
    Except String (IntermediateGammaTensor A F) :=
  .error "TypeError: __init__() got an unexpected keyword argument bias_Tensor"

end IntermediateGammaTensor

/-- A constraint function handed to the optimizer by
`max_lipschitz_via_explicit_search`: an assignment of values to symbols
(keyed by ssid — the absent `create_lookup_tables_for_symbol` from
`search.py` supplies the ssid-to-vector-index bijection, modelled away by
keying on ssids directly) is feasible when every constraint returns a
nonnegative value; a constraint may itself raise, since the source lambdas
index `r2_indices_list[i]` only when called. -/
abbrev ConstraintFn := (ℕ → ℚ) → Except String ℚ

/-- Source `f1` of the constraint loop in `max_lipschitz_via_explicit_search`
(scalar.py line 328): `x[r2_indices_list[i][0]] + x[r2_indices_list[i][1]]
+ min_max_list[i][0]` — the perturbed pair of input `i` plus that leaf's
lower bound. -/
def pairLowerFn (inputs diffs : List LeafScalar) (i : ℕ) : ConstraintFn :=
  fun x =>
    match inputs.get? i, diffs.get? i with
    | some l, some d => .ok (x l.ssid + x d.ssid + l.minV)
    | _, _ => .error "IndexError: list index out of range"

/-- Source `f2` (line 329): `-(x[r2_indices_list[i][0]] + x[r2_indices_list[i][1]])
+ min_max_list[i][1]`. -/
def pairUpperFn (inputs diffs : List LeafScalar) (i : ℕ) : ConstraintFn :=
  fun x =>
    match inputs.get? i, diffs.get? i with
    | some l, some d => .ok (-(x l.ssid + x d.ssid) + l.maxV)
    | _, _ => .error "IndexError: list index out of range"

/-- Source `non_negative_additive_terms` (lines 336-344): the source returns
`sqrt(Σ δ²) − 2⁻¹⁶`; over ℚ this is stated in the equivalent-feasibility
form `Σ δ² − (2⁻¹⁶)²` (both sides of `sqrt(Σ δ²) ≥ 2⁻¹⁶` are nonnegative,
so squaring preserves the constraint's feasible set `{x : fn x ≥ 0}`). -/
def nonNegSlackFn (diffs : List LeafScalar) : ConstraintFn :=
  fun x =>
    .ok ((diffs.map (fun d => x d.ssid * x d.ssid)).sum - (1 / 2 ^ 16) ^ 2)

/-- Source `self.input_scalars` (lines 120-125): look every free symbol of the
polynomial up in `ssid2obj`; an unregistered symbol raises `KeyError`. -/
def lookupInputs (st : AdpState) (p : Poly) : Except String (List LeafScalar) :=
  p.symList.mapM (fun s =>
    match st.find? s with
    | some l => Except.ok l
    | none => Except.error "KeyError: unregistered ssid")

/-- The `r2_diffs` construction of `max_lipschitz_via_explicit_search`
(scalar.py line 288): one fresh `GammaScalar` per input scalar, copying
its bound box, value and entity — each registered in the symbol table as
a side effect. -/
def registerDiffs (st : AdpState) : List LeafScalar → List LeafScalar × AdpState
  | [] => ([], st)
  | l :: rest =>
    let (g, st1) := mkLeaf st l.minV l.val l.maxV l.entity true
    let (gs, st2) := registerDiffs st1 rest
    (g :: gs, st2)

/-- The constraint list built by `max_lipschitz_via_explicit_search`
(lines 326-344): the hardcoded `for i in range(2)` emits the
perturbed-pair box constraints for inputs 0 and 1 only — regardless of how
many inputs there are — and the single non-negativity constraint over all
perturbation symbols is appended last. -/
def explicitSearchConstraints (st : AdpState) (p : Poly) :
    Except String (List ConstraintFn) × AdpState :=
  match lookupInputs st p with
  | .error e => (.error e, st)
  | .ok inputs =>
    let (diffs, st') := registerDiffs st inputs
    (.ok [pairLowerFn inputs diffs 0, pairUpperFn inputs diffs 0,
          pairLowerFn inputs diffs 1, pairUpperFn inputs diffs 1,
          nonNegSlackFn diffs], st')

/-- The registry of the C9 scenario: three registered single-entity leaves
with bound box `[0, 1]` and value 0, owned by entities 0, 1, 2. -/
def c9State : AdpState :=
  ⟨[(0, ⟨0, 0, 0, 0, 1, false⟩), (1, ⟨1, 1, 0, 0, 1, false⟩),
    (2, ⟨2, 2, 0, 0, 1, false⟩)], 3⟩

/-- The C9 target polynomial: the sum of the three leaf symbols. -/
def c9Poly : Poly := .add (.add (.var 0) (.var 1)) (.var 2)

/-- The C9 input scalars, as `lookupInputs` returns them. -/
def c9Inputs : List LeafScalar :=
  [⟨0, 0, 0, 0, 1, false⟩, ⟨1, 1, 0, 0, 1, false⟩, ⟨2, 2, 0, 0, 1, false⟩]

/-- The C9 perturbation leaves minted by `registerDiffs`. -/
def c9Diffs : List LeafScalar :=
  [⟨3, 0, 0, 0, 1, true⟩, ⟨4, 1, 0, 0, 1, true⟩, ⟨5, 2, 0, 0, 1, true⟩]

/-- The C9 assignment: the third input and its perturbation sit at their
upper bound 1, everything else at 0 — each individual symbol stays in its
own range, but the third perturbed pair `x₂ + δ₂ = 2` leaves the third
leaf's box `[0, 1]`. -/
def c9Assign : ℕ → ℚ :=
  fun s => if s = 2 ∨ s = 5 then 1 else 0

lemma find?_mem {st : AdpState} {s : ℕ} {l : LeafScalar}
    (h : st.find? s = some l) : (s, l) ∈ st.reg := by
  unfold AdpState.find? at h
  cases hf : st.reg.find? (fun pr => pr.1 = s) with
  | none => rw [hf] at h; simp at h
  | some pr =>
    rw [hf] at h
    simp only [Option.map_some', Option.some.injEq] at h
    have hp : pr.1 = s := by simpa using List.find?_some hf
    have hm := List.mem_of_find?_eq_some hf
    have : pr = (s, l) := by
      cases pr with
      | mk a b => simp_all
    rw [this] at hm
    exact hm

lemma find?_lt_next {st : AdpState} (hwf : StateWF st) {s : ℕ} {l : LeafScalar}
    (h : st.find? s = some l) : s < st.next ∧ l.ssid = s := by
  have hm := find?_mem h
  have := hwf _ hm
  exact ⟨this.2, this.1⟩

lemma find?_cons_self {reg : List (ℕ × LeafScalar)} {n k : ℕ} {l : LeafScalar} :
    (AdpState.mk ((k, l) :: reg) n).find? k = some l := by
  simp [AdpState.find?, List.find?]

lemma find?_cons_of_ne {reg : List (ℕ × LeafScalar)} {n k s : ℕ} {l : LeafScalar}
    (h : k ≠ s) :
    (AdpState.mk ((k, l) :: reg) n).find? s =
      (AdpState.mk reg n).find? s := by
  simp [AdpState.find?, List.find?, h]

/-- Registering a fresh leaf preserves every lookup an old state answered. -/
lemma mkLeaf_preserves_find? {st : AdpState} (hwf : StateWF st)
    {m v M : ℚ} {e : ℕ} {g : Bool} {s : ℕ} {l : LeafScalar}
    (h : st.find? s = some l) :
    (mkLeaf st m v M e g).2.find? s = some l := by
  have hs := (find?_lt_next hwf h).1
  have hne : st.next ≠ s := by omega
  unfold mkLeaf
  rw [find?_cons_of_ne hne]
  exact h

lemma mkLeaf_wf {st : AdpState} (hwf : StateWF st)
    {m v M : ℚ} {e : ℕ} {g : Bool} :
    StateWF (mkLeaf st m v M e g).2 := by
  intro pr hpr
  simp only [mkLeaf, List.mem_cons] at hpr
  rcases hpr with h | h
  · subst h; exact ⟨rfl, Nat.lt_succ_self _⟩
  · have := hwf _ h
    exact ⟨this.1, Nat.lt_succ_of_lt this.2⟩

lemma mkLeaf_ordered {st : AdpState} (hord : LeafOrdered st)
    {m v M : ℚ} {e : ℕ} {g : Bool} (h1 : m ≤ v) (h2 : v ≤ M) :
    LeafOrdered (mkLeaf st m v M e g).2 := by
  intro pr hpr
  simp only [mkLeaf, List.mem_cons] at hpr
  rcases hpr with h | h
  · subst h; exact ⟨h1, h2⟩
  · exact hord _ h

lemma mkLeaf_next {st : AdpState} {m v M : ℚ} {e : ℕ} {g : Bool} :
    (mkLeaf st m v M e g).2.next = st.next + 1 := rfl

lemma mkLeaf_fst {st : AdpState} {m v M : ℚ} {e : ℕ} {g : Bool} :
    (mkLeaf st m v M e g).1 = ⟨st.next, e, m, v, M, g⟩ := rfl

lemma mkLeaf_find_self {st : AdpState} {m v M : ℚ} {e : ℕ} {g : Bool} :
    (mkLeaf st m v M e g).2.find? st.next = some (mkLeaf st m v M e g).1 :=
  find?_cons_self

/-- Source `phiGamma` returns a leaf owned by the operand's entity. -/
lemma phiGamma_entity {opt : Optimizer} {st : AdpState} {a : PhiVal}
    (hc : CacheWF st a.entity a.cache) :
    (phiGamma opt st a).1.entity = a.entity := by
  cases a with
  | leaf l c =>
    cases c with
    | none => rfl
    | some g => exact hc.1
  | derived p e c =>
    cases c with
    | none => rfl
    | some g => exact hc.1

/-- Source `phiGamma` leaves the returned leaf registered in the resulting state. -/
lemma phiGamma_registered {opt : Optimizer} {st : AdpState} {a : PhiVal}
    (hc : CacheWF st a.entity a.cache) :
    (phiGamma opt st a).2.find? (phiGamma opt st a).1.ssid =
      some (phiGamma opt st a).1 := by
  cases a with
  | leaf l c =>
    cases c with
    | none => exact mkLeaf_find_self
    | some g => exact hc.2
  | derived p e c =>
    cases c with
    | none => exact mkLeaf_find_self
    | some g => exact hc.2

lemma phiGamma_wf {opt : Optimizer} {st : AdpState} {a : PhiVal}
    (hwf : StateWF st) : StateWF (phiGamma opt st a).2 := by
  cases a with
  | leaf l c => cases c with
    | none => exact mkLeaf_wf hwf
    | some g => exact hwf
  | derived p e c => cases c with
    | none => exact mkLeaf_wf hwf
    | some g => exact hwf

lemma phiGamma_preserves_find? {opt : Optimizer} {st : AdpState} {a : PhiVal}
    (hwf : StateWF st) {s : ℕ} {l : LeafScalar} (h : st.find? s = some l) :
    (phiGamma opt st a).2.find? s = some l := by
  cases a with
  | leaf l' c => cases c with
    | none => exact mkLeaf_preserves_find? hwf h
    | some g => exact h
  | derived p e c => cases c with
    | none => exact mkLeaf_preserves_find? hwf h
    | some g => exact h

lemma phiGamma_ssid_lt {opt : Optimizer} {st : AdpState} {a : PhiVal}
    (hwf : StateWF st) (hc : CacheWF st a.entity a.cache) :
    (phiGamma opt st a).1.ssid < (phiGamma opt st a).2.next := by
  have hreg := @phiGamma_registered opt st a hc
  have hwf' := @phiGamma_wf opt st a hwf
  exact (find?_lt_next hwf' hreg).1

lemma phiGamma_next_le {opt : Optimizer} {st : AdpState} {a : PhiVal} :
    st.next ≤ (phiGamma opt st a).2.next := by
  cases a with
  | leaf l c => cases c with
    | none => exact Nat.le_succ _
    | some g => exact le_refl _
  | derived p e c => cases c with
    | none => exact Nat.le_succ _
    | some g => exact le_refl _

lemma cacheWF_phiGamma {opt : Optimizer} {st : AdpState} {a : PhiVal}
    (hwf : StateWF st) {e : ℕ} {c : Option LeafScalar} (h : CacheWF st e c) :
    CacheWF (phiGamma opt st a).2 e c := by
  cases c with
  | none => trivial
  | some g => exact ⟨h.1, phiGamma_preserves_find? hwf h.2⟩

/-- The registry-value assignment lies inside every registered leaf's own
bound box whenever all registered leaves are bound-ordered. -/
lemma leafVals_inBox {st : AdpState} (hord : LeafOrdered st) (p : Poly) :
    InBox st p (leafVals st) := by
  intro s _ l hl
  have hm := find?_mem hl
  have hb := hord _ hm
  simpa [leafVals, hl] using hb

/-- Any box minimum and box maximum of a polynomial sandwich its value at
the registered leaves' point values. -/
lemma value_between {st : AdpState} (hord : LeafOrdered st) {p : Poly}
    {m M : ℚ} (hmin : IsMinOverBox st p m) (hmax : IsMaxOverBox st p M) :
    m ≤ valueOf st p ∧ valueOf st p ≤ M :=
  ⟨hmin.1 _ (leafVals_inBox hord p), hmax.1 _ (leafVals_inBox hord p)⟩

lemma phiGamma_ordered {opt : Optimizer} (hopt : PointwiseSound opt)
    {st : AdpState} (hord : LeafOrdered st) {a : PhiVal}
    (ha : PhiLeafOrdered a) : LeafOrdered (phiGamma opt st a).2 := by
  cases a with
  | leaf l c =>
    cases c with
    | some g => exact hord
    | none => exact mkLeaf_ordered hord ha.1 ha.2
  | derived p e c =>
    cases c with
    | some g => exact hord
    | none => exact mkLeaf_ordered hord (hopt st p).1 (hopt st p).2

lemma phiAddPhi_ordered {opt : Optimizer} (hopt : PointwiseSound opt)
    {st : AdpState} (hord : LeafOrdered st) {a b : PhiVal}
    (ha : PhiLeafOrdered a) (hb : PhiLeafOrdered b) :
    LeafOrdered (phiAddPhi opt st a b).2 := by
  unfold phiAddPhi
  split
  · exact hord
  · exact phiGamma_ordered hopt (phiGamma_ordered hopt hord ha) hb

lemma phiSubPhi_ordered {opt : Optimizer} (hopt : PointwiseSound opt)
    {st : AdpState} (hord : LeafOrdered st) {a b : PhiVal}
    (ha : PhiLeafOrdered a) (hb : PhiLeafOrdered b) :
    LeafOrdered (phiSubPhi opt st a b).2 := by
  unfold phiSubPhi
  split
  · exact hord
  · exact phiGamma_ordered hopt (phiGamma_ordered hopt hord ha) hb

lemma phiMulPhi_ordered {opt : Optimizer} (hopt : PointwiseSound opt)
    {st : AdpState} (hord : LeafOrdered st) {a b : PhiVal}
    (ha : PhiLeafOrdered a) (hb : PhiLeafOrdered b) :
    LeafOrdered (phiMulPhi opt st a b).2 := by
  unfold phiMulPhi
  split
  · exact hord
  · exact phiGamma_ordered hopt (phiGamma_ordered hopt hord ha) hb

lemma phiOpPhi_ordered {k : BinOp} {opt : Optimizer} (hopt : PointwiseSound opt)
    {st : AdpState} (hord : LeafOrdered st) {a b : PhiVal}
    (ha : PhiLeafOrdered a) (hb : PhiLeafOrdered b) :
    LeafOrdered (phiOpPhi k opt st a b).2 := by
  cases k with
  | opAdd => exact phiAddPhi_ordered hopt hord ha hb
  | opSub => exact phiSubPhi_ordered hopt hord ha hb
  | opMul => exact phiMulPhi_ordered hopt hord ha hb


/-- When no input symbol of `p` traces to entity `e`, the restricted
gradient objective is the zero polynomial. -/
lemma gradientSq_no_entity_syms {st : AdpState} {p : Poly} {e : ℕ}
    (h : ∀ s ∈ p.symList, entityOfSym st s ≠ e) :
    gradientSq st p (some e) = .const 0 := by
  unfold gradientSq
  have hf : (p.symList).filter (fun s => decide (entityOfSym st s = e)) = [] := by
    rw [List.filter_eq_nil]
    intro s hs
    simpa using h s hs
  rw [hf]
  rfl

/-- With an empty `_gamma` cache, promotion mints exactly one fresh gamma
leaf and prepends it to the registry. -/
lemma phiGamma_none_reg {opt : Optimizer} {st : AdpState} {a : PhiVal}
    (h : a.cache = none) :
    (phiGamma opt st a).2.reg =
      ((phiGamma opt st a).1.ssid, (phiGamma opt st a).1) :: st.reg ∧
    (phiGamma opt st a).1.isGamma = true := by
  cases a with
  | leaf l c =>
    cases c with
    | none => exact ⟨rfl, rfl⟩
    | some g => simp [PhiVal.cache] at h
  | derived p e c =>
    cases c with
    | none => exact ⟨rfl, rfl⟩
    | some g => simp [PhiVal.cache] at h

/-- Source `registerDiffs` grows the registry by exactly one entry per input. -/
lemma registerDiffs_reg_length (ls : List LeafScalar) (st : AdpState) :
    (registerDiffs st ls).2.reg.length = st.reg.length + ls.length := by
  induction ls generalizing st with
  | nil => rfl
  | cons l rest ih =>
    show (registerDiffs (mkLeaf st l.minV l.val l.maxV l.entity true).2
        rest).2.reg.length = _
    rw [ih]
    simp [mkLeaf]
    omega

end Adp

open Adp

/-- Claim C1. For every pair of Phi-side values `a` and `b` (`PhiScalar` or
`IntermediatePhiScalar`): if `a.entity == b.entity` then `a + b` is an
`IntermediatePhiScalar` whose entity equals `a.entity` (never promoted), and
if `a.entity != b.entity` then `a + b` is gamma-typed and the result's
`input_entities` equals the set `{a.entity, b.entity}`. -/
theorem C1_promotion_invariant (opt : Optimizer) (st : AdpState) (a b : PhiVal)
    (hwf : StateWF st) (ha : CacheWF st a.entity a.cache)
    (hb : CacheWF st b.entity b.cache) :
    (a.entity = b.entity →
      phiAddPhi opt st a b =
        (.phiRes (.derived (.add a.poly b.poly) a.entity none), st)) ∧
    (a.entity ≠ b.entity →
      ∃ p st', phiAddPhi opt st a b = (.gammaRes (.derived p), st') ∧
        inputEntities st' p = {a.entity, b.entity}) := by
  constructor
  · intro h
    unfold phiAddPhi
    rw [if_pos h]
  · intro h
    rcases hga : phiGamma opt st a with ⟨ga, st1⟩
    rcases hgb : phiGamma opt st1 b with ⟨gb, st2⟩
    have hga1 : (phiGamma opt st a).1 = ga := by rw [hga]
    have hga2 : (phiGamma opt st a).2 = st1 := by rw [hga]
    have hgb1 : (phiGamma opt st1 b).1 = gb := by rw [hgb]
    have hgb2 : (phiGamma opt st1 b).2 = st2 := by rw [hgb]
    have hwf1 : StateWF st1 := hga2 ▸ phiGamma_wf hwf
    have hwf2 : StateWF st2 := hgb2 ▸ phiGamma_wf hwf1
    have haent : ga.entity = a.entity := hga1 ▸ phiGamma_entity ha
    have hb1 : CacheWF st1 b.entity b.cache := hga2 ▸ cacheWF_phiGamma hwf hb
    have hbent : gb.entity = b.entity := hgb1 ▸ phiGamma_entity hb1
    have hregA : st1.find? ga.ssid = some ga := by
      have := @phiGamma_registered opt st a ha
      rwa [hga1, hga2] at this
    have hregB : st2.find? gb.ssid = some gb := by
      have := @phiGamma_registered opt st1 b hb1
      rwa [hgb1, hgb2] at this
    have hregA2 : st2.find? ga.ssid = some ga := by
      have := @phiGamma_preserves_find? opt st1 b hwf1 _ _ hregA
      rwa [hgb2] at this
    have hne : ga.ssid ≠ gb.ssid := by
      intro hss
      rw [hss, hregB] at hregA2
      have : ga = gb := by injection hregA2.symm
      rw [this, hbent] at haent
      exact h haent.symm
    have key : phiAddPhi opt st a b =
        (ScalarResult.gammaRes
          (GammaVal.derived (Poly.add (.var ga.ssid) (.var gb.ssid))), st2) := by
      simp only [phiAddPhi, if_neg h, hga, hgb, gammaAddGamma, GammaVal.poly]
    refine ⟨_, _, key, ?_⟩
    have hfs : (Poly.add (.var ga.ssid) (.var gb.ssid)).freeSyms =
        insert ga.ssid {gb.ssid} := by
      simp [Poly.freeSyms, Finset.insert_eq]
    unfold inputEntities
    rw [hfs, Finset.image_insert, Finset.image_singleton]
    have e1 : entityOfSym st2 ga.ssid = a.entity := by
      simp [entityOfSym, hregA2, haent]
    have e2 : entityOfSym st2 gb.ssid = b.entity := by
      simp [entityOfSym, hregB, hbent]
    rw [e1, e2]

/-- Witness for C1: two fresh single-entity leaves owned by entities 10 and
20 promote to a gamma-typed sum whose input entities are exactly those two. -/
theorem C1_promotion_invariant_witness :
    ∃ p st', phiAddPhi zeroOptimizer ⟨[], 0⟩
        (.leaf ⟨0, 10, 0, 1, 2, false⟩ none) (.leaf ⟨1, 20, 0, 1, 2, false⟩ none) =
        (.gammaRes (.derived p), st') ∧
      inputEntities st' p = {10, 20} :=
  (C1_promotion_invariant zeroOptimizer ⟨[], 0⟩
      (.leaf ⟨0, 10, 0, 1, 2, false⟩ none) (.leaf ⟨1, 20, 0, 1, 2, false⟩ none)
      (fun pr hpr => absurd hpr (List.not_mem_nil pr))
      trivial trivial).2 (by decide)

/-- Claim C2. For `x = PhiScalar(min_val=0, value=5, max_val=10)` owned by
entity `X = 0` and `y = PhiScalar(min_val=0, value=3, max_val=10)` owned by
a different entity `Y = 1`, the sum `s = x + y` is gamma-typed and
satisfies `s.value == 8`, `s.max_val == 20`, `s.min_val == 0`, and
`s.max_lipschitz_wrt_entity(X) == 1` (derived bounds and the Lipschitz
value stated via the extremum relations modelling the absent
`search.py` optimizer). -/
theorem C2_end_to_end_scenario (opt : Optimizer) :
    (phiAddPhi opt (mkLeaf (mkLeaf ⟨[], 0⟩ 0 5 10 0 false).2 0 3 10 1 false).2
        (.leaf (mkLeaf ⟨[], 0⟩ 0 5 10 0 false).1 none)
        (.leaf (mkLeaf (mkLeaf ⟨[], 0⟩ 0 5 10 0 false).2 0 3 10 1 false).1 none)
      = (.gammaRes (.derived c2Poly), c2State)) ∧
    valueOf c2State c2Poly = 8 ∧
    IsMaxOverBox c2State c2Poly 20 ∧
    IsMinOverBox c2State c2Poly 0 ∧
    MaxLipschitzWrt c2State c2Poly 0 1 := by
  have f2 : c2State.find? 2 = some ⟨2, 0, 0, 5, 10, true⟩ := rfl
  have f3 : c2State.find? 3 = some ⟨3, 1, 0, 3, 10, true⟩ := rfl
  refine ⟨rfl, ?_, ⟨?_, ?_⟩, ⟨?_, ?_⟩, ?_⟩
  · simp [valueOf, c2Poly, Poly.eval, leafVals, f2, f3]
    norm_num
  · intro f hf
    have h2 := hf 2 (by decide) ⟨2, 0, 0, 5, 10, true⟩ f2
    have h3 := hf 3 (by decide) ⟨3, 1, 0, 3, 10, true⟩ f3
    have b2 := h2.2
    have b3 := h3.2
    simp only [c2Poly, Poly.eval]
    simp only [LeafScalar.maxV] at b2 b3
    linarith
  · refine ⟨fun _ => 10, ?_, by norm_num [c2Poly, Poly.eval]⟩
    intro s hs l hl
    have hs' : s = 2 ∨ s = 3 := by
      simpa [c2Poly, Poly.freeSyms] using hs
    rcases hs' with rfl | rfl
    · rw [f2] at hl
      injection hl with hl
      subst hl
      exact ⟨by norm_num, by norm_num⟩
    · rw [f3] at hl
      injection hl with hl
      subst hl
      exact ⟨by norm_num, by norm_num⟩
  · intro f hf
    have h2 := hf 2 (by decide) ⟨2, 0, 0, 5, 10, true⟩ f2
    have h3 := hf 3 (by decide) ⟨3, 1, 0, 3, 10, true⟩ f3
    have b2 := h2.1
    have b3 := h3.1
    simp only [c2Poly, Poly.eval]
    simp only [LeafScalar.minV] at b2 b3
    linarith
  · refine ⟨fun _ => 0, ?_, by norm_num [c2Poly, Poly.eval]⟩
    intro s hs l hl
    have hs' : s = 2 ∨ s = 3 := by
      simpa [c2Poly, Poly.freeSyms] using hs
    rcases hs' with rfl | rfl
    · rw [f2] at hl
      injection hl with hl
      subst hl
      exact ⟨by norm_num, by norm_num⟩
    · rw [f3] at hl
      injection hl with hl
      subst hl
      exact ⟨by norm_num, by norm_num⟩
  · refine ⟨by norm_num, ?_⟩
    have hg : gradientSq c2State c2Poly (some 0) =
        Poly.add (.mul (.add (.const 1) (.const 0)) (.add (.const 1) (.const 0)))
          (.const 0) := rfl
    rw [hg]
    constructor
    · intro f _
      simp [Poly.eval]
    · refine ⟨fun _ => 0, ?_, by norm_num [Poly.eval]⟩
      intro s hs l hl
      simp [Poly.freeSyms] at hs

/-- Claim C3. For every constructed or derived scalar (leaf
`PhiScalar`/`GammaScalar` constructed with ordered bounds, and every result
of `+`, `-`, `*` over such scalars), the invariant
`min_val ≤ value ≤ max_val` holds after the operation: a leaf stores its
ordered triple unchanged, and for Phi-side and Gamma-side operation results
any box minimum/maximum (the spec's extremum-search reading of the derived
`min_val`/`max_val`, whose optimizer lives in the absent `search.py`)
sandwiches the recomputed `value`. -/
theorem C3_bound_invariant (opt : Optimizer) (hopt : PointwiseSound opt)
    (st : AdpState) (hord : LeafOrdered st) (k : BinOp) (a b : PhiVal)
    (ha : PhiLeafOrdered a) (hb : PhiLeafOrdered b) :
    (∀ (mv v Mv : ℚ) (e : ℕ) (g : Bool), mv ≤ v → v ≤ Mv →
      (mkLeaf st mv v Mv e g).1.minV ≤ (mkLeaf st mv v Mv e g).1.val ∧
      (mkLeaf st mv v Mv e g).1.val ≤ (mkLeaf st mv v Mv e g).1.maxV) ∧
    (∀ m M,
      IsMinOverBox (phiOpPhi k opt st a b).2 (phiOpPhi k opt st a b).1.poly m →
      IsMaxOverBox (phiOpPhi k opt st a b).2 (phiOpPhi k opt st a b).1.poly M →
      m ≤ valueOf (phiOpPhi k opt st a b).2 (phiOpPhi k opt st a b).1.poly ∧
      valueOf (phiOpPhi k opt st a b).2 (phiOpPhi k opt st a b).1.poly ≤ M) ∧
    (∀ (g1 g2 : GammaVal) m M,
      IsMinOverBox st (gammaOpGamma k g1 g2).poly m →
      IsMaxOverBox st (gammaOpGamma k g1 g2).poly M →
      m ≤ valueOf st (gammaOpGamma k g1 g2).poly ∧
      valueOf st (gammaOpGamma k g1 g2).poly ≤ M) := by
  refine ⟨fun mv v Mv e g h1 h2 => ⟨h1, h2⟩, ?_, ?_⟩
  · intro m M hmin hmax
    exact value_between (phiOpPhi_ordered hopt hord ha hb) hmin hmax
  · intro g1 g2 m M hmin hmax
    exact value_between hord hmin hmax

/-- Witness for C3: adding the constant-polynomial derived scalars 5 and 3
(same entity) in the empty state yields a value sandwiched by the exact box
extremum 8 on both sides. -/
theorem C3_bound_invariant_witness :
    8 ≤ valueOf ⟨[], 0⟩ ((phiOpPhi .opAdd valueOptimizer ⟨[], 0⟩
        (.derived (.const 5) 0 none) (.derived (.const 3) 0 none)).1.poly) ∧
      valueOf ⟨[], 0⟩ ((phiOpPhi .opAdd valueOptimizer ⟨[], 0⟩
        (.derived (.const 5) 0 none) (.derived (.const 3) 0 none)).1.poly) ≤ 8 := by
  have hpoly : (phiOpPhi .opAdd valueOptimizer ⟨[], 0⟩
      (.derived (.const 5) 0 none) (.derived (.const 3) 0 none)).1.poly =
      Poly.add (.const 5) (.const 3) := rfl
  refine (C3_bound_invariant valueOptimizer (fun st p => ⟨le_refl _, le_refl _⟩)
      ⟨[], 0⟩ (fun pr hpr => absurd hpr (List.not_mem_nil pr)) .opAdd
      (.derived (.const 5) 0 none) (.derived (.const 3) 0 none)
      trivial trivial).2.1 8 8 ?_ ?_
  · rw [show (phiOpPhi .opAdd valueOptimizer ⟨[], 0⟩
        (.derived (.const 5) 0 none) (.derived (.const 3) 0 none)).1.poly =
        Poly.add (.const 5) (.const 3) from hpoly]
    constructor
    · intro f _
      norm_num [Poly.eval]
    · exact ⟨fun _ => 0, fun s hs l hl => by simp [Poly.freeSyms] at hs,
        by norm_num [Poly.eval]⟩
  · rw [show (phiOpPhi .opAdd valueOptimizer ⟨[], 0⟩
        (.derived (.const 5) 0 none) (.derived (.const 3) 0 none)).1.poly =
        Poly.add (.const 5) (.const 3) from hpoly]
    constructor
    · intro f _
      norm_num [Poly.eval]
    · exact ⟨fun _ => 0, fun s hs l hl => by simp [Poly.freeSyms] at hs,
        by norm_num [Poly.eval]⟩

/-- Claim C4. Failing evaluation for the tensor-multiply term-count law: with
trailing lengths `m = 1` and `n = 2` the product's term tensor has trailing
length 4, not `m*n + m + n = 5` — the third source loop runs `m` times and
repeatedly appends `other`'s slice at the stale index `m - 1`, so `other`'s
remaining term/coeff slices are dropped and one is duplicated (the multiset
of (term, coefficient) pairs is not preserved); with `m = 2`, `n = 1` the
stale index is out of bounds and the multiply raises `IndexError`. -/
theorem C4_mul_term_count_failure :
    IntermediateGammaTensor.mul (A := ℤ) (F := ℕ)
        ⟨[2], [3], 5, 0⟩ ⟨[7, 11], [13, 17], 19, 0⟩ =
      .ok ⟨[14, 22, 2, 7], [39, 51, 57, 65], 95, 0⟩ ∧
    (IntermediateGammaTensor.mul (A := ℤ) (F := ℕ)
        ⟨[2], [3], 5, 0⟩ ⟨[7, 11], [13, 17], 19, 0⟩).map
      (fun t => t.term_tensor.length) = .ok 4 ∧
    (4 : ℕ) ≠ 1 * 2 + 1 + 2 ∧
    IntermediateGammaTensor.mul (A := ℤ) (F := ℕ)
        ⟨[2, 3], [4, 5], 6, 0⟩ ⟨[7], [8], 9, 0⟩ =
      .error "IndexError: index out of bounds on trailing axis" :=
  ⟨rfl, rfl, by norm_num, rfl⟩

/-- Claim C7. For every pair of gamma-side tensor operands combined by add or
multiply whose `symbol_factory` values differ, the operation raises
immediately and never returns a combined value (scalar gamma values carry
no `symbol_factory` field at all, so no pair of scalar operands can have
differing factories). -/
theorem C7_factory_mismatch_error {A F : Type} [Add A] [Mul A] [DecidableEq F]
    (a b : IntermediateGammaTensor A F)
    (h : a.symbol_factory ≠ b.symbol_factory) :
    IntermediateGammaTensor.add a b =
      .error "Cannot add two tensors with different symbol encodings" ∧
    IntermediateGammaTensor.mul a b =
      .error "Cannot add two tensors with different symbol encodings" := by
  unfold IntermediateGammaTensor.add IntermediateGammaTensor.mul
  rw [if_pos h, if_pos h]
  exact ⟨rfl, rfl⟩

/-- Witness for C7 at factories 0 and 1. -/
theorem C7_factory_mismatch_error_witness :
    IntermediateGammaTensor.add (A := ℤ) (F := ℕ) ⟨[1], [1], 0, 0⟩ ⟨[1], [1], 0, 1⟩ =
      .error "Cannot add two tensors with different symbol encodings" ∧
    IntermediateGammaTensor.mul (A := ℤ) (F := ℕ) ⟨[1], [1], 0, 0⟩ ⟨[1], [1], 0, 1⟩ =
      .error "Cannot add two tensors with different symbol encodings" :=
  C7_factory_mismatch_error ⟨[1], [1], 0, 0⟩ ⟨[1], [1], 0, 1⟩ (by decide)

/-- Claim C8. Failing evaluation for the tensor reductions: `prod(dim)` never
returns the product-reduced tensor — the constructor call spells the bias
keyword `bias_Tensor`, which the constructor does not accept, so every call
raises `TypeError` (and `sum(dim)` never sums: it sets the new bias to
`np.sum(dim)`, the reduced axis index itself, and only swaps/squeezes the
term and coeff tensors). -/
theorem C8_prod_always_raises :
    IntermediateGammaTensor.prod (A := ℤ) (F := ℕ) ⟨[2, 3], [4, 5], 6, 0⟩ 0 =
      .error "TypeError: __init__() got an unexpected keyword argument bias_Tensor" :=
  rfl

/-- Claim C5. Against any conformant run of the (spec-modelled)
jacobian-based search: a converged `max_lipschitz` /
`max_lipschitz_wrt_entity` value is a nonnegative rational; a
non-converging run surfaces as a distinguishable error through the
property wrapper rather than as a silently wrong number; and the
per-entity restriction really only sees that entity's inputs — when no
input of the polynomial traces to the named entity, any converged
restricted Lipschitz value is 0. -/
theorem C5_lipschitz_contract (st : AdpState) (p : Poly) (ent : Option ℕ)
    (o : SearchOutcome) (hc : JacobianConformant st p ent o) :
    (∀ L, maxLipschitzFromOutcome o = .ok L → 0 ≤ L) ∧
    (∀ msg, o = .failed msg → maxLipschitzFromOutcome o = .error msg) ∧
    (∀ e, ent = some e → (∀ s ∈ p.symList, entityOfSym st s ≠ e) →
      ∀ L, maxLipschitzFromOutcome o = .ok L → L = 0) := by
  refine ⟨?_, ?_, ?_⟩
  · intro L hL
    cases o with
    | failed msg => simp [maxLipschitzFromOutcome] at hL
    | converged v =>
      obtain ⟨L', h0, hv, _⟩ := hc
      simp only [maxLipschitzFromOutcome, Except.ok.injEq] at hL
      rw [← hL, hv, neg_neg]
      exact h0
  · intro msg hmsg
    subst hmsg
    rfl
  · intro e hent hnone L hL
    subst hent
    cases o with
    | failed msg => simp [maxLipschitzFromOutcome] at hL
    | converged v =>
      obtain ⟨L', h0, hv, hmax⟩ := hc
      rw [gradientSq_no_entity_syms hnone] at hmax
      obtain ⟨f, _, hf⟩ := hmax.2
      have hz : L' * L' = 0 := by
        simpa [Poly.eval] using hf.symm
      have hL' : L' = 0 := by
        exact mul_self_eq_zero.mp hz
      simp only [maxLipschitzFromOutcome, Except.ok.injEq] at hL
      rw [← hL, hv, hL', neg_neg]

/-- Witness for C5: a one-leaf registry, target polynomial equal to that
leaf's symbol, and the conformant converged outcome `-1`; the wrapped
Lipschitz value is nonnegative. -/
theorem C5_lipschitz_contract_witness :
    JacobianConformant ⟨[(0, ⟨0, 7, 0, 1, 2, false⟩)], 1⟩ (.var 0) none
      (.converged (-1)) ∧
    (∀ L, maxLipschitzFromOutcome (.converged (-1)) = .ok L → 0 ≤ L) := by
  have hg : gradientSq ⟨[(0, ⟨0, 7, 0, 1, 2, false⟩)], 1⟩ (.var 0) none =
      Poly.add (.mul (.const 1) (.const 1)) (.const 0) := rfl
  have hmax : IsMaxOverBox ⟨[(0, ⟨0, 7, 0, 1, 2, false⟩)], 1⟩
      (gradientSq ⟨[(0, ⟨0, 7, 0, 1, 2, false⟩)], 1⟩ (.var 0) none)
      (1 * 1) := by
    rw [hg]
    constructor
    · intro f _
      norm_num [Poly.eval]
    · exact ⟨fun _ => 0, fun s hs l hl => by simp [Poly.freeSyms] at hs,
        by norm_num [Poly.eval]⟩
  have hc : JacobianConformant ⟨[(0, ⟨0, 7, 0, 1, 2, false⟩)], 1⟩ (.var 0) none
      (.converged (-1)) := ⟨1, by norm_num, by norm_num, hmax⟩
  exact ⟨hc, (C5_lipschitz_contract _ _ _ _ hc).1⟩

/-- Claim C6. Failing evaluation for the wire round trip: encoding any
freshly constructed `PhiScalar` raises `AttributeError` at `self.name`
(no constructor in the hierarchy assigns `name` or `entity_name`), and
decoding any message raises `TypeError` because `_proto2object` calls
`Scalar(id=..., name=..., ...)` while `class Scalar` defines no
`__init__`; no round trip can complete. -/
theorem C6_roundtrip_broken :
    object2proto (phiScalarAttr ⟨0, 5, 0, 1, 2, false⟩ 0) =
      .error "AttributeError: name" ∧
    ∀ pb : ScalarPB, proto2object pb =
      .error "TypeError: Scalar() takes no arguments" := by
  constructor
  · rfl
  · intro pb
    rfl

/-- Claim C9. Failing evaluation for the explicit-search constraint set: with
three input scalars the emitted list holds perturbed-pair box constraints
for inputs 0 and 1 only (the source hardcodes `for i in range(2)`) plus the
single slack non-negativity constraint; the assignment `c9Assign` — third
input and its perturbation both at their upper bound 1 — satisfies every
emitted constraint even though the third perturbed pair `x₂ + δ₂ = 2`
leaves the third leaf's box `[0, 1]`: the pair-upper constraint the claim
requires for input 2 would evaluate to `-1 < 0`. -/
theorem C9_hardcoded_range_two :
    explicitSearchConstraints c9State c9Poly =
      (.ok [pairLowerFn c9Inputs c9Diffs 0, pairUpperFn c9Inputs c9Diffs 0,
            pairLowerFn c9Inputs c9Diffs 1, pairUpperFn c9Inputs c9Diffs 1,
            nonNegSlackFn c9Diffs],
        ⟨[(5, ⟨5, 2, 0, 0, 1, true⟩), (4, ⟨4, 1, 0, 0, 1, true⟩),
          (3, ⟨3, 0, 0, 0, 1, true⟩), (0, ⟨0, 0, 0, 0, 1, false⟩),
          (1, ⟨1, 1, 0, 0, 1, false⟩), (2, ⟨2, 2, 0, 0, 1, false⟩)], 6⟩) ∧
    (∀ c ∈ [pairLowerFn c9Inputs c9Diffs 0, pairUpperFn c9Inputs c9Diffs 0,
            pairLowerFn c9Inputs c9Diffs 1, pairUpperFn c9Inputs c9Diffs 1,
            nonNegSlackFn c9Diffs],
      ∃ v, c c9Assign = .ok v ∧ 0 ≤ v) ∧
    pairUpperFn c9Inputs c9Diffs 2 c9Assign = .ok (-1) ∧
    ((-1 : ℚ) < 0) := by
  refine ⟨rfl, ?_, ?_, by norm_num⟩
  · intro c hc
    simp only [List.mem_cons, List.not_mem_nil, or_false] at hc
    rcases hc with rfl | rfl | rfl | rfl | rfl
    · exact ⟨0, by norm_num [pairLowerFn, c9Inputs, c9Diffs, c9Assign], le_refl 0⟩
    · exact ⟨1, by norm_num [pairUpperFn, c9Inputs, c9Diffs, c9Assign], by norm_num⟩
    · exact ⟨0, by norm_num [pairLowerFn, c9Inputs, c9Diffs, c9Assign], le_refl 0⟩
    · exact ⟨1, by norm_num [pairUpperFn, c9Inputs, c9Diffs, c9Assign], by norm_num⟩
    · exact ⟨1 - (1 / 2 ^ 16) ^ 2,
        by norm_num [nonNegSlackFn, c9Diffs, c9Assign], by norm_num⟩
  · norm_num [pairUpperFn, c9Inputs, c9Diffs, c9Assign]

/-- Counterexample to **C10** as stated: adding two registered single-entity
leaves owned by different entities (a pure arithmetic composition) grows
the symbol table from 2 entries to 4 — the two promotions each mint and
register a fresh `GammaScalar`. -/
theorem C10_counterexample :
    (phiAddPhi zeroOptimizer
        ⟨[(1, ⟨1, 20, 0, 1, 2, false⟩), (0, ⟨0, 10, 0, 1, 2, false⟩)], 2⟩
        (.leaf ⟨0, 10, 0, 1, 2, false⟩ none)
        (.leaf ⟨1, 20, 0, 1, 2, false⟩ none)).2.reg.length = 4 ∧
    (4 : ℕ) ≠ 2 :=
  ⟨rfl, by norm_num⟩

/-- Claim C10 (amended). Registry writes happen only inside
`PhiScalar`/`GammaScalar` leaf construction — but gamma promotion during
cross-entity arithmetic and the explicit sensitivity search do construct
fresh `GammaScalar` leaves: same-entity Phi composition leaves the
registry untouched for all of `+`, `-`, `*`; cross-entity composition with
empty `_gamma` caches prepends exactly the two freshly minted gamma
leaves; and the explicit search's `r2_diffs` construction registers
exactly one gamma leaf per input scalar. -/
theorem C10_registry_write_discipline (k : BinOp) (opt : Optimizer)
    (st : AdpState) (a b : PhiVal) :
    (a.entity = b.entity → (phiOpPhi k opt st a b).2 = st) ∧
    (a.entity ≠ b.entity → a.cache = none → b.cache = none →
      ∃ g1 g2 : LeafScalar, g1.isGamma = true ∧ g2.isGamma = true ∧
        (phiOpPhi k opt st a b).2.reg =
          (g2.ssid, g2) :: (g1.ssid, g1) :: st.reg) ∧
    (∀ inputs : List LeafScalar,
      (registerDiffs st inputs).2.reg.length = st.reg.length + inputs.length) := by
  refine ⟨?_, ?_, fun inputs => registerDiffs_reg_length inputs st⟩
  · intro h
    cases k with
    | opAdd =>
      show (phiAddPhi opt st a b).2 = st
      unfold phiAddPhi
      rw [if_pos h]
    | opSub =>
      show (phiSubPhi opt st a b).2 = st
      unfold phiSubPhi
      rw [if_pos h]
    | opMul =>
      show (phiMulPhi opt st a b).2 = st
      unfold phiMulPhi
      rw [if_pos h]
  · intro hne hca hcb
    have ha' := @phiGamma_none_reg opt st a hca
    have hb' := @phiGamma_none_reg opt (phiGamma opt st a).2 b hcb
    refine ⟨(phiGamma opt st a).1, (phiGamma opt (phiGamma opt st a).2 b).1,
      ha'.2, hb'.2, ?_⟩
    have hst : (phiOpPhi k opt st a b).2 =
        (phiGamma opt (phiGamma opt st a).2 b).2 := by
      cases k with
      | opAdd =>
        show (phiAddPhi opt st a b).2 = _
        unfold phiAddPhi
        rw [if_neg hne]
      | opSub =>
        show (phiSubPhi opt st a b).2 = _
        unfold phiSubPhi
        rw [if_neg hne]
      | opMul =>
        show (phiMulPhi opt st a b).2 = _
        unfold phiMulPhi
        rw [if_neg hne]
    rw [hst, hb'.1, ha'.1]

/-- Witness for the amended C10: a concrete cross-entity add from the empty
registry registers exactly two fresh gamma leaves. -/
theorem C10_registry_write_discipline_witness :
    ∃ g1 g2 : LeafScalar, g1.isGamma = true ∧ g2.isGamma = true ∧
      (phiOpPhi .opAdd zeroOptimizer ⟨[], 0⟩
          (.leaf ⟨0, 10, 0, 1, 2, false⟩ none)
          (.leaf ⟨1, 20, 0, 1, 2, false⟩ none)).2.reg =
        (g2.ssid, g2) :: (g1.ssid, g1) :: [] :=
  (C10_registry_write_discipline .opAdd zeroOptimizer ⟨[], 0⟩
      (.leaf ⟨0, 10, 0, 1, 2, false⟩ none)
      (.leaf ⟨1, 20, 0, 1, 2, false⟩ none)).2.1 (by decide) rfl rfl
